import Mathlib

/-!
Verification of the review-scheduling core of the spaced-repetition tool.

The embedding models Python numbers exactly: `float` arithmetic on the
decimal constants of the scheduler is carried out on `ℚ`, and Python's
`round` (banker's rounding, round-half-to-even) is `rhe` below; `round(x, 2)`
is `round2`.  Functions that raise `ValueError` return `Option` (`none` is
the raised error).  Dates are modelled as integers counting days, so
`date + timedelta(days=n)` is `+ n` and `(d1 - d2).days` is `d1 - d2`.
-/

namespace SpacedRep

/-- Python's built-in `round` to an integer: round half to even. -/
def rhe (x : ℚ) : ℤ :=
  if x - (⌊x⌋ : ℚ) < 1/2 then ⌊x⌋
  else if 1/2 < x - (⌊x⌋ : ℚ) then ⌊x⌋ + 1
  else if ⌊x⌋ % 2 = 0 then ⌊x⌋ else ⌊x⌋ + 1

/-- Python's `round(x, 2)`. -/
def round2 (x : ℚ) : ℚ := ((rhe (x * 100) : ℤ) : ℚ) / 100

/--
`SM2Calculator.calculate_next_review` (src/src/models/sm2.py, lines 33-46).
Raises (returns `none`) when the rating is outside `[0, 3]`; otherwise
returns `(new_interval, round(new_ease_factor, 2))`.
-/
def calculate_next_review (rating : ℤ) (current_interval : ℤ)
    (current_ease_factor : ℚ) : Option (ℤ × ℚ) :=
  if ¬ (0 ≤ rating ∧ rating ≤ 3) then
    none
  else if rating = 0 then
    some (1, round2 (max 1.3 (current_ease_factor - 0.2)))
  else
    let ease_adjustment : ℚ :=
      0.1 - ((3 - rating : ℤ) : ℚ) * (0.08 + ((3 - rating : ℤ) : ℚ) * 0.02)
    let new_ease_factor := current_ease_factor + ease_adjustment
    let new_interval := max 1 (rhe ((current_interval : ℚ) * new_ease_factor))
    some (new_interval, round2 new_ease_factor)

/--
`SM2Calculator.calculate_mcq_review` (src/src/models/sm2.py, lines 48-95).
Maps `(is_correct, confidence_level)` to a synthetic SM-2 rating, delegates
to `calculate_next_review`, and on a confidently wrong answer subtracts a
misconception penalty of `0.1` re-clamped to the `1.3` floor.
-/
def calculate_mcq_review (is_correct : Bool) (confidence_level : String)
    (current_interval : ℤ) (current_ease_factor : ℚ) : Option (ℤ × ℚ) :=
  if ¬ (confidence_level = "low" ∨ confidence_level = "medium" ∨
        confidence_level = "high") then
    none
  else
    let sm2_rating : ℤ :=
      if is_correct then
        if confidence_level = "high" then 3
        else if confidence_level = "medium" then 2
        else 1
      else 0
    match calculate_next_review sm2_rating current_interval
        current_ease_factor with
    | none => none
    | some (new_interval, ef) =>
      let new_ease_factor :=
        if ¬ is_correct ∧ confidence_level = "high" then
          max 1.3 (ef - 0.1)
        else ef
      some (new_interval, round2 new_ease_factor)

/--
`SM2Calculator.is_overdue` (src/src/models/sm2.py, lines 97-114).
`none` stands for Python `None` (never reviewed).
-/
def is_overdue (last_reviewed_date : Option ℤ) (interval_days : ℤ)
    (current_date : ℤ) : Bool :=
  match last_reviewed_date with
  | none => true
  | some d =>
    let next_review_date := d + interval_days
    decide (current_date ≥ next_review_date)

/-- The value of a Python `float` as returned by `days_overdue`: either
`float("inf")` or a finite (here always integral) value. -/
inductive PyFloat where
  | inf : PyFloat
  | val : ℚ → PyFloat
deriving DecidableEq

/-- `SM2Calculator.days_overdue` (src/src/models/sm2.py, lines 116-134). -/
def days_overdue (last_reviewed_date : Option ℤ) (interval_days : ℤ)
    (current_date : ℤ) : PyFloat :=
  match last_reviewed_date with
  | none => PyFloat.inf
  | some d =>
    let next_review_date := d + interval_days
    let days_diff := current_date - next_review_date
    PyFloat.val (max 0 ((days_diff : ℤ) : ℚ))

/--
The SM-2 update performed inline by the legacy `mark_reviewed`
(src/db/operations.py, lines 138-185), extracted as the pure pair
`(new_interval, round(new_ease_factor, 2))` it writes to the store for a
fetched `(current_interval, current_ease_factor)`; `none` is the
`ValueError` raised for an out-of-range rating.
-/
def mark_reviewed_update (rating : ℤ) (current_interval : ℤ)
    (current_ease_factor : ℚ) : Option (ℤ × ℚ) :=
  if rating < 0 ∨ rating > 3 then
    none
  else if rating = 0 then
    some (1, round2 (max 1.3 (current_ease_factor - 0.2)))
  else
    let new_ease_factor := current_ease_factor +
      (0.1 - ((3 - rating : ℤ) : ℚ) * (0.08 + ((3 - rating : ℤ) : ℚ) * 0.02))
    let new_interval := max 1 (rhe ((current_interval : ℚ) * new_ease_factor))
    some (new_interval, round2 new_ease_factor)

/--
The SM-2 update performed inline by the legacy `mark_reviewed_mcq`
(src/db/operations.py, lines 445-526), extracted as the pure pair
`(new_interval, round(new_ease_factor, 2))` it writes to the store; `none`
is the `ValueError` raised for an invalid confidence level.
-/
def mark_reviewed_mcq_update (is_correct : Bool) (confidence_level : String)
    (current_interval : ℤ) (current_ease_factor : ℚ) : Option (ℤ × ℚ) :=
  if ¬ (confidence_level = "low" ∨ confidence_level = "medium" ∨
        confidence_level = "high") then
    none
  else
    let sm2_rating : ℤ :=
      if is_correct then
        if confidence_level = "high" then 3
        else if confidence_level = "medium" then 2
        else 1
      else 0
    if sm2_rating = 0 then
      let base_penalty : ℚ := 0.2
      let penalty :=
        if confidence_level = "high" then base_penalty * 1.5 else base_penalty
      some (1, round2 (max 1.3 (current_ease_factor - penalty)))
    else
      let ease_adjustment : ℚ :=
        if confidence_level = "low" then 0.05
        else if confidence_level = "medium" then 0.1
        else 0.1 - ((3 - sm2_rating : ℤ) : ℚ) *
          (0.08 + ((3 - sm2_rating : ℤ) : ℚ) * 0.02)
      let new_ease_factor := current_ease_factor + ease_adjustment
      let new_interval := max 1 (rhe ((current_interval : ℚ) * new_ease_factor))
      some (new_interval, round2 new_ease_factor)

/--
The `Question` pydantic model (src/src/models/question.py, lines 7-37):
constructing it with only the content fields supplied leaves the scheduling
fields at their declared defaults `last_reviewed = None`, `interval = 1`,
`ease_factor = 2.5`.
-/
structure Question where
  id : Option ℤ
  question_text : String
  tags : Option String
  last_reviewed : Option ℤ
  interval : ℤ
  ease_factor : ℚ
deriving DecidableEq

/-- Construction of a `Question` with only its content fields supplied; the
scheduling fields take the `Field(default=...)` values of the source. -/
def Question.create (question_text : String) (tags : Option String) :
    Question :=
  { id := none, question_text := question_text, tags := tags,
    last_reviewed := none, interval := 1, ease_factor := 2.5 }

/--
The `MCQQuestion` pydantic model (src/src/models/mcq.py, lines 7-60):
its `last_reviewed` field is declared with
`default_factory=lambda: date.today()`, so a freshly constructed instance
carries the creation date, while `interval` defaults to `1` and
`ease_factor` to `2.5`.  Explanation fields are omitted here; they are
content only.
-/
structure MCQQuestion where
  id : Option ℤ
  question : String
  question_type : String
  option_a : String
  option_b : String
  option_c : Option String
  option_d : Option String
  correct_option : String
  tags : Option String
  last_reviewed : Option ℤ
  interval : ℤ
  ease_factor : ℚ
deriving DecidableEq

/-- Construction of an `MCQQuestion` with only its content fields supplied,
on the day `today`; `last_reviewed` takes `default_factory`'s value
`date.today()`, the other scheduling fields their declared defaults. -/
def MCQQuestion.create (today : ℤ) (question question_type : String)
    (option_a option_b : String) (option_c option_d : Option String)
    (correct_option : String) (tags : Option String) : MCQQuestion :=
  { id := none, question := question, question_type := question_type,
    option_a := option_a, option_b := option_b, option_c := option_c,
    option_d := option_d, correct_option := correct_option, tags := tags,
    last_reviewed := some today, interval := 1, ease_factor := 2.5 }

/--
The `Challenge` pydantic model (src/src/models/challenge.py, lines 7-39):
its `last_reviewed` field is declared with
`default_factory=lambda: date.today()`, so a freshly constructed instance
carries the creation date, while `interval` defaults to `1` and
`ease_factor` to `2.5`.
-/
structure Challenge where
  id : Option ℤ
  title : String
  description : String
  testcases : Option String
  language : String
  last_reviewed : Option ℤ
  interval : ℤ
  ease_factor : ℚ
deriving DecidableEq

/-- Construction of a `Challenge` with only its content fields supplied, on
the day `today`; `last_reviewed` takes `default_factory`'s value
`date.today()`, the other scheduling fields their declared defaults. -/
def Challenge.create (today : ℤ) (title description : String)
    (testcases : Option String) (language : String) : Challenge :=
  { id := none, title := title, description := description,
    testcases := testcases, language := language,
    last_reviewed := some today, interval := 1, ease_factor := 2.5 }

/-! ### Arithmetic facts about Python rounding -/

theorem floor_le_rhe (x : ℚ) : ⌊x⌋ ≤ rhe x := by
  unfold rhe; split_ifs <;> omega

theorem rhe_le_floor_add_one (x : ℚ) : rhe x ≤ ⌊x⌋ + 1 := by
  unfold rhe; split_ifs <;> omega

theorem rhe_intCast (n : ℤ) : rhe (n : ℚ) = n := by
  unfold rhe
  norm_num [Int.floor_intCast]

theorem rhe_mono {x y : ℚ} (h : x ≤ y) : rhe x ≤ rhe y := by
  rcases eq_or_lt_of_le (Int.floor_le_floor h) with hf | hf
  · unfold rhe
    rw [← hf]
    split_ifs <;> first | omega | linarith
  · calc rhe x ≤ ⌊x⌋ + 1 := rhe_le_floor_add_one x
      _ ≤ ⌊y⌋ := by omega
      _ ≤ rhe y := floor_le_rhe y

theorem rhe_sub_ten (x : ℚ) : rhe (x - 10) = rhe x - 10 := by
  unfold rhe
  have hf : ⌊x - 10⌋ = ⌊x⌋ - 10 := by
    have h10 : ⌊x - (10 : ℤ)⌋ = ⌊x⌋ - 10 := Int.floor_sub_int x 10
    exact_mod_cast h10
  rw [hf]
  have hr : x - 10 - ((⌊x⌋ - 10 : ℤ) : ℚ) = x - (⌊x⌋ : ℚ) := by
    push_cast; ring
  rw [hr]
  split_ifs <;> omega

theorem round2_mono {x y : ℚ} (h : x ≤ y) : round2 x ≤ round2 y := by
  unfold round2
  have h1 : rhe (x * 100) ≤ rhe (y * 100) :=
    rhe_mono (by linarith)
  have h2 : ((rhe (x * 100) : ℤ) : ℚ) ≤ ((rhe (y * 100) : ℤ) : ℚ) := by
    exact_mod_cast h1
  linarith

theorem le_round2 {n : ℤ} {x : ℚ} (h : (n : ℚ) / 100 ≤ x) :
    (n : ℚ) / 100 ≤ round2 x := by
  unfold round2
  have h1 : (n : ℚ) ≤ x * 100 := by linarith
  have h2 : n ≤ ⌊x * 100⌋ := Int.le_floor.2 h1
  have h3 : n ≤ rhe (x * 100) := le_trans h2 (floor_le_rhe _)
  have h4 : ((n : ℤ) : ℚ) ≤ ((rhe (x * 100) : ℤ) : ℚ) := by exact_mod_cast h3
  linarith

theorem round2_max (x y : ℚ) :
    round2 (max x y) = max (round2 x) (round2 y) := by
  rcases le_total x y with h | h
  · rw [max_eq_right h, max_eq_right (round2_mono h)]
  · rw [max_eq_left h, max_eq_left (round2_mono h)]

theorem round2_sub_tenth (x : ℚ) :
    round2 (x - 1/10) = round2 x - 1/10 := by
  unfold round2
  have h : (x - 1/10) * 100 = x * 100 - 10 := by ring
  rw [h, rhe_sub_ten]
  push_cast
  ring

theorem round2_div_hundred (m : ℤ) :
    round2 ((m : ℚ) / 100) = (m : ℚ) / 100 := by
  unfold round2
  have h : ((m : ℚ) / 100) * 100 = (m : ℚ) := by ring
  rw [h, rhe_intCast]

theorem round2_round2 (x : ℚ) : round2 (round2 x) = round2 x := by
  have h : round2 x = ((rhe (x * 100) : ℤ) : ℚ) / 100 := rfl
  rw [h, round2_div_hundred]

/-! ### Branch equations for the SM-2 core -/

theorem cnr_zero (I : ℤ) (E : ℚ) :
    calculate_next_review 0 I E = some (1, round2 (max 1.3 (E - 0.2))) := by
  unfold calculate_next_review
  rw [if_neg (by omega), if_pos rfl]

theorem cnr_pos (r : ℤ) (I : ℤ) (E : ℚ) (h0 : 0 ≤ r) (h3 : r ≤ 3)
    (hr : r ≠ 0) :
    calculate_next_review r I E =
      some (max 1 (rhe ((I : ℚ) * (E + (0.1 - ((3 - r : ℤ) : ℚ) *
          (0.08 + ((3 - r : ℤ) : ℚ) * 0.02))))),
        round2 (E + (0.1 - ((3 - r : ℤ) : ℚ) *
          (0.08 + ((3 - r : ℤ) : ℚ) * 0.02)))) := by
  unfold calculate_next_review
  rw [if_neg (by omega), if_neg hr]

theorem le_round2_of_13 {x : ℚ} (h : (13/10 : ℚ) ≤ x) :
    (13/10 : ℚ) ≤ round2 x := by
  have h130 : ((130 : ℤ) : ℚ) / 100 ≤ x := by push_cast; linarith
  have h2 := le_round2 h130
  push_cast at h2
  linarith

/-! ### Evaluation lemmas for concrete rationals -/

theorem rhe_num {x : ℚ} {n : ℤ} (h1 : (n : ℚ) ≤ x)
    (h2 : x < (n : ℚ) + 1/2) : rhe x = n := by
  have hf : ⌊x⌋ = n := Int.floor_eq_iff.2 ⟨h1, by linarith⟩
  unfold rhe
  rw [hf, if_pos (by linarith)]

theorem rhe_tie_even {x : ℚ} {n : ℤ} (h1 : x - (n : ℚ) = 1/2)
    (he : n % 2 = 0) : rhe x = n := by
  have hf : ⌊x⌋ = n := Int.floor_eq_iff.2 ⟨by linarith, by linarith⟩
  unfold rhe
  rw [hf, if_neg (by linarith), if_neg (by linarith), if_pos he]

theorem round2_lit {x : ℚ} {m : ℤ} (h : x * 100 = (m : ℚ)) :
    round2 x = (m : ℚ) / 100 := by
  unfold round2
  rw [h, rhe_intCast]

/-! ### Claim theorems -/

/--
C3: `calculate_next_review` implements exactly the documented SM-2 rule:
rating 0 resets the interval to 1 and drops the ease factor by 0.2 clamped
at 1.3; a positive rating adds
`0.1 - (3 - rating) * (0.08 + (3 - rating) * 0.02)` to the ease factor and
multiplies the interval by the new ease factor (rounded, floored at 1);
the ease factor is rounded to 2 decimals; in particular
`calculate_next_review 0 10 2.5 = (1, 2.3)`.
-/
theorem calculate_next_review_formula (rating current_interval : ℤ)
    (current_ease_factor : ℚ) (h0 : 0 ≤ rating) (h3 : rating ≤ 3)
    (hI : 1 ≤ current_interval)
    (hE1 : (13/10 : ℚ) ≤ current_ease_factor)
    (hE2 : current_ease_factor ≤ 3) :
    (rating = 0 →
      calculate_next_review rating current_interval current_ease_factor =
        some (1, round2 (max 1.3 (current_ease_factor - 0.2)))) ∧
    (rating ≠ 0 →
      calculate_next_review rating current_interval current_ease_factor =
        some (max 1 (rhe ((current_interval : ℚ) *
            (current_ease_factor + (0.1 - ((3 - rating : ℤ) : ℚ) *
              (0.08 + ((3 - rating : ℤ) : ℚ) * 0.02))))),
          round2 (current_ease_factor + (0.1 - ((3 - rating : ℤ) : ℚ) *
            (0.08 + ((3 - rating : ℤ) : ℚ) * 0.02))))) ∧
    calculate_next_review 0 10 2.5 = some (1, 2.3) := by
  refine ⟨?_, ?_, ?_⟩
  · intro hr
    subst hr
    exact cnr_zero _ _
  · intro hr
    exact cnr_pos rating _ _ h0 h3 hr
  · rw [cnr_zero]
    have h1 : max (1.3 : ℚ) (2.5 - 0.2) = 23/10 := by norm_num [max_def]
    rw [h1, round2_lit (show (23/10 : ℚ) * 100 = ((230 : ℤ) : ℚ) by norm_num)]
    norm_num

theorem calculate_next_review_formula_witness :
    calculate_next_review 0 10 (5/2) =
      some (1, round2 (max 1.3 ((5/2 : ℚ) - 0.2))) :=
  (calculate_next_review_formula 0 10 (5/2) (by decide) (by decide)
    (by decide) (by norm_num) (by norm_num)).1 rfl

/--
C1 counterexample: the valid input `rating = 1`, `current_interval = 1`,
`current_ease_factor = 1.3` yields `new_ease_factor = 1.16 < 1.3`: the
success path of `calculate_next_review` has no 1.3 floor, so the claimed
invariant `newEaseFactor ≥ 1.3` is false.
-/
theorem invariant_ease_floor_cex :
    calculate_next_review 1 1 1.3 = some (1, 1.16) ∧
    ¬ ((13/10 : ℚ) ≤ 1.16) := by
  constructor
  · rw [cnr_pos 1 1 1.3 (by decide) (by decide) (by decide)]
    have hadj : (1.3 : ℚ) + (0.1 - ((3 - 1 : ℤ) : ℚ) *
        (0.08 + ((3 - 1 : ℤ) : ℚ) * 0.02)) = 29/25 := by
      push_cast
      norm_num
    rw [hadj]
    have hmul : ((1 : ℤ) : ℚ) * (29/25) = 29/25 := by norm_num
    rw [hmul, rhe_num (n := 1) (by norm_num) (by norm_num),
      round2_lit (show (29/25 : ℚ) * 100 = ((116 : ℤ) : ℚ) by norm_num)]
    norm_num
  · norm_num

/--
C1 amended: for all valid inputs `calculate_next_review` returns
`newInterval ≥ 1`, and `newEaseFactor ≥ 1.3` for every rating except 1
(rating 1 subtracts 0.14 without clamping and can fall below 1.3).
-/
theorem calculate_next_review_invariant (rating current_interval : ℤ)
    (current_ease_factor : ℚ) (h0 : 0 ≤ rating) (h3 : rating ≤ 3)
    (hI : 1 ≤ current_interval)
    (hE1 : (13/10 : ℚ) ≤ current_ease_factor)
    (hE2 : current_ease_factor ≤ 3) :
    ∃ p, calculate_next_review rating current_interval current_ease_factor
        = some p ∧ 1 ≤ p.1 ∧ (rating ≠ 1 → (13/10 : ℚ) ≤ p.2) := by
  rcases eq_or_ne rating 0 with hr | hr
  · subst hr
    refine ⟨_, cnr_zero _ _, le_refl 1, fun _ => le_round2_of_13 ?_⟩
    rw [le_max_iff]
    left
    norm_num
  · refine ⟨_, cnr_pos rating _ _ h0 h3 hr, le_max_left 1 _, fun hne => ?_⟩
    apply le_round2_of_13
    have h1 : rating = 2 ∨ rating = 3 := by omega
    rcases h1 with h2 | h2 <;> subst h2 <;> push_cast <;> linarith

theorem calculate_next_review_invariant_witness :
    ∃ p, calculate_next_review 3 5 (5/2) = some p ∧ 1 ≤ p.1 ∧
      ((3 : ℤ) ≠ 1 → (13/10 : ℚ) ≤ p.2) :=
  calculate_next_review_invariant 3 5 (5/2) (by decide) (by decide)
    (by decide) (by norm_num) (by norm_num)

/--
C5: `is_overdue` returns `true` when `last_reviewed` is `None`, and
otherwise returns `true` iff `current_date ≥ last_reviewed + interval_days`
(inclusive: `true` exactly on the scheduled day, `false` one day before).
-/
theorem is_overdue_spec (last interval_days current : ℤ) :
    is_overdue none interval_days current = true ∧
    (is_overdue (some last) interval_days current = true ↔
      last + interval_days ≤ current) ∧
    is_overdue (some last) interval_days (last + interval_days) = true ∧
    is_overdue (some last) interval_days (last + interval_days - 1) = false := by
  refine ⟨rfl, ?_, ?_, ?_⟩
  · simp [is_overdue]
  · simp [is_overdue]
  · simp [is_overdue]

/--
C6: `days_overdue` returns `+infinity` when `last_reviewed` is `None`, and
otherwise `max(0, (current_date - (last_reviewed + interval_days)).days)`
as a float: `0.0` exactly on the due date and never negative.
-/
theorem days_overdue_spec (last interval_days current : ℤ) :
    days_overdue none interval_days current = PyFloat.inf ∧
    days_overdue (some last) interval_days current =
      PyFloat.val (max 0 ((current - (last + interval_days) : ℤ) : ℚ)) ∧
    days_overdue (some last) interval_days (last + interval_days) =
      PyFloat.val 0 ∧
    (∀ q, days_overdue (some last) interval_days current = PyFloat.val q →
      0 ≤ q) := by
  refine ⟨rfl, rfl, by simp [days_overdue], ?_⟩
  intro q hq
  simp only [days_overdue] at hq
  cases hq
  exact le_max_left 0 _

/--
C9 counterexample: an `MCQQuestion` constructed with only its content
fields supplied does not have `last_reviewed = None`; its
`default_factory` fills in the creation date, so the claim that all three
reviewable kinds start with `last_reviewed = "never"` is false.
-/
theorem mcq_create_last_reviewed_cex :
    (MCQQuestion.create 0 "Is water wet?" "true_false" "True" "False"
      none none "a" none).last_reviewed ≠ (none : Option ℤ) := by
  simp [MCQQuestion.create]

/--
C9 amended: every newly created reviewable item has `interval = 1` and
`ease_factor = 2.5`; a `Question` starts with `last_reviewed = None`, but
an `MCQQuestion` or a `Challenge` created on day `today` starts with
`last_reviewed = today` (its `default_factory` is `date.today()`), not
`None`.
-/
theorem create_defaults (today : ℤ) (a b c d e : String)
    (oc od tags tc : Option String) :
    (Question.create a tags).interval = 1 ∧
    (Question.create a tags).ease_factor = 2.5 ∧
    (Question.create a tags).last_reviewed = none ∧
    (MCQQuestion.create today a b c d oc od e tags).interval = 1 ∧
    (MCQQuestion.create today a b c d oc od e tags).ease_factor = 2.5 ∧
    (MCQQuestion.create today a b c d oc od e tags).last_reviewed =
      some today ∧
    (Challenge.create today a b tc e).interval = 1 ∧
    (Challenge.create today a b tc e).ease_factor = 2.5 ∧
    (Challenge.create today a b tc e).last_reviewed = some today :=
  ⟨rfl, rfl, rfl, rfl, rfl, rfl, rfl, rfl, rfl⟩

theorem cnr_none_iff (r I : ℤ) (E : ℚ) :
    calculate_next_review r I E = none ↔ ¬ (0 ≤ r ∧ r ≤ 3) := by
  unfold calculate_next_review
  rcases Decidable.em (0 ≤ r ∧ r ≤ 3) with h | h
  · rw [if_neg (not_not_intro h)]
    split_ifs <;> simp [h]
  · rw [if_pos h]
    simp [h]

theorem cmr_none_iff (b : Bool) (c : String) (I : ℤ) (E : ℚ) :
    calculate_mcq_review b c I E = none ↔
      ¬ (c = "low" ∨ c = "medium" ∨ c = "high") := by
  unfold calculate_mcq_review
  rcases Decidable.em (c = "low" ∨ c = "medium" ∨ c = "high") with h | h
  · rw [if_neg (not_not_intro h)]
    have hne : calculate_next_review
        (if b = true then
          (if c = "high" then 3 else if c = "medium" then 2 else 1)
         else 0) I E ≠ none := by
      intro hcontra
      rw [cnr_none_iff] at hcontra
      exact hcontra (by split_ifs <;> omega)
    obtain ⟨v, hv⟩ := Option.ne_none_iff_exists'.mp hne
    obtain ⟨ni, ef⟩ := v
    dsimp only
    rw [hv]
    simp [h]
  · rw [if_pos h]
    simp [h]

theorem cmr_correct_low (I : ℤ) (E : ℚ) :
    calculate_mcq_review true "low" I E = calculate_next_review 1 I E := by
  unfold calculate_mcq_review
  rw [if_neg (not_not_intro (Or.inl rfl))]
  dsimp only
  norm_num
  rw [if_neg (by decide : ¬ ("low" : String) = "high"),
    if_neg (by decide : ¬ ("low" : String) = "medium")]
  rw [cnr_pos 1 I E (by decide) (by decide) (by decide)]
  simp [round2_round2]

theorem cmr_correct_medium (I : ℤ) (E : ℚ) :
    calculate_mcq_review true "medium" I E = calculate_next_review 2 I E := by
  unfold calculate_mcq_review
  rw [if_neg (not_not_intro (Or.inr (Or.inl rfl)))]
  dsimp only
  norm_num
  rw [if_neg (by decide : ¬ ("medium" : String) = "high")]
  rw [cnr_pos 2 I E (by decide) (by decide) (by decide)]
  simp [round2_round2]

theorem cmr_correct_high (I : ℤ) (E : ℚ) :
    calculate_mcq_review true "high" I E = calculate_next_review 3 I E := by
  unfold calculate_mcq_review
  rw [if_neg (not_not_intro (Or.inr (Or.inr rfl)))]
  dsimp only
  norm_num
  rw [cnr_pos 3 I E (by decide) (by decide) (by decide)]
  simp [round2_round2]

theorem cmr_false_low (I : ℤ) (E : ℚ) :
    calculate_mcq_review false "low" I E =
      some (1, round2 (max 1.3 (E - 0.2))) := by
  unfold calculate_mcq_review
  rw [if_neg (not_not_intro (Or.inl rfl))]
  dsimp only
  norm_num
  rw [cnr_zero]
  simp [round2_round2]
  norm_num

theorem round2_thirteen_tenths : round2 (13/10 : ℚ) = 13/10 := by
  rw [round2_lit (show (13/10 : ℚ) * 100 = ((130 : ℤ) : ℚ) by norm_num)]
  norm_num

theorem round2_penalty_collapse (u : ℚ) :
    round2 (max (13/10) (round2 u - 1/10)) =
      round2 (max (13/10) (u - 1/10)) := by
  calc round2 (max (13/10) (round2 u - 1/10))
      = round2 (max (round2 (13/10)) (round2 (u - 1/10))) := by
        rw [round2_thirteen_tenths, round2_sub_tenth]
    _ = round2 (round2 (max (13/10) (u - 1/10))) := by rw [← round2_max]
    _ = round2 (max (13/10) (u - 1/10)) := round2_round2 _

theorem cmr_false_high (I : ℤ) (E : ℚ) :
    calculate_mcq_review false "high" I E =
      some (1, round2 (max 1.3 (max 1.3 (E - 0.2) - 0.1))) := by
  unfold calculate_mcq_review
  rw [if_neg (not_not_intro (Or.inr (Or.inr rfl)))]
  dsimp only
  norm_num
  rw [cnr_zero]
  simp only [show (1.3 : ℚ) = 13/10 by norm_num,
    show (0.1 : ℚ) = 1/10 by norm_num, show (0.2 : ℚ) = 1/5 by norm_num]
  rw [round2_penalty_collapse]

/--
C10: the inline SM-2 update of the legacy `mark_reviewed`
(db/operations.py) computes exactly the pair returned by
`SM2Calculator.calculate_next_review` on the same inputs, and the two
reject exactly the same out-of-range ratings.
-/
theorem mark_reviewed_refines (rating current_interval : ℤ)
    (current_ease_factor : ℚ) :
    mark_reviewed_update rating current_interval current_ease_factor =
      calculate_next_review rating current_interval current_ease_factor := by
  unfold mark_reviewed_update calculate_next_review
  split_ifs <;> first | rfl | omega

/--
C7: `calculate_next_review` raises (`none`) iff the rating is outside
`[0, 3]`, `calculate_mcq_review` raises iff the confidence level is not
one of low, medium, high, and neither raises for the boundary values
rating 0 or 3 and ease factor 1.3 or 3.0.
-/
theorem validation_spec (rating current_interval : ℤ)
    (current_ease_factor : ℚ) (is_correct : Bool)
    (confidence_level : String) :
    (calculate_next_review rating current_interval current_ease_factor = none
      ↔ ¬ (0 ≤ rating ∧ rating ≤ 3)) ∧
    (calculate_mcq_review is_correct confidence_level current_interval
        current_ease_factor = none
      ↔ ¬ (confidence_level = "low" ∨ confidence_level = "medium" ∨
           confidence_level = "high")) ∧
    (calculate_next_review 0 current_interval (13/10)).isSome = true ∧
    (calculate_next_review 3 current_interval 3).isSome = true ∧
    (calculate_mcq_review is_correct "low" current_interval (13/10)).isSome
      = true ∧
    (calculate_mcq_review is_correct "high" current_interval 3).isSome
      = true := by
  refine ⟨cnr_none_iff _ _ _, cmr_none_iff _ _ _ _, ?_, ?_, ?_, ?_⟩
  · rw [cnr_zero]
    rfl
  · rw [cnr_pos 3 _ _ (by decide) (by decide) (by decide)]
    rfl
  · have hne : calculate_mcq_review is_correct "low" current_interval
        (13/10) ≠ none := by
      intro hc
      rw [cmr_none_iff] at hc
      exact hc (Or.inl rfl)
    obtain ⟨v, hv⟩ := Option.ne_none_iff_exists'.mp hne
    rw [hv]
    rfl
  · have hne : calculate_mcq_review is_correct "high" current_interval
        3 ≠ none := by
      intro hc
      rw [cmr_none_iff] at hc
      exact hc (Or.inr (Or.inr rfl))
    obtain ⟨v, hv⟩ := Option.ne_none_iff_exists'.mp hne
    rw [hv]
    rfl

/--
C2 counterexample: `calculate_mcq_review` on a correct low-confidence
answer at `(current_interval, current_ease_factor) = (1, 2.5)` returns
ease factor 2.36 (the standard SM-2 formula with synthetic rating 1,
adjustment −0.14), not the claimed `round(2.5 + 0.05, 2) = 2.55`.
-/
theorem mcq_confidence_bonus_cex :
    calculate_mcq_review true "low" 1 2.5 = some (2, 2.36) ∧
    round2 ((2.5 : ℚ) + 0.05) = 2.55 ∧
    (2.36 : ℚ) ≠ 2.55 := by
  refine ⟨?_, ?_, by norm_num⟩
  · rw [cmr_correct_low, cnr_pos 1 1 2.5 (by decide) (by decide) (by decide)]
    have hadj : (2.5 : ℚ) + (0.1 - ((3 - 1 : ℤ) : ℚ) *
        (0.08 + ((3 - 1 : ℤ) : ℚ) * 0.02)) = 59/25 := by
      push_cast
      norm_num
    rw [hadj, show ((1 : ℤ) : ℚ) * (59/25) = 59/25 by norm_num,
      rhe_num (n := 2) (by norm_num) (by norm_num),
      round2_lit (show (59/25 : ℚ) * 100 = ((236 : ℤ) : ℚ) by norm_num)]
    norm_num
  · rw [show (2.5 : ℚ) + 0.05 = 51/20 by norm_num,
      round2_lit (show (51/20 : ℚ) * 100 = ((255 : ℤ) : ℚ) by norm_num)]
    norm_num

/--
C2 amended: for a correct answer `calculate_mcq_review` delegates to the
standard SM-2 formula for every confidence level, with synthetic rating
1 (low), 2 (medium) or 3 (high); the `low→+0.05`, `medium→+0.10`
ease-factor adjustments are applied only by the legacy
`mark_reviewed_mcq` update in db/operations.py.
-/
theorem calculate_mcq_review_correct_amended (current_interval : ℤ)
    (current_ease_factor : ℚ) :
    calculate_mcq_review true "low" current_interval current_ease_factor =
      calculate_next_review 1 current_interval current_ease_factor ∧
    calculate_mcq_review true "medium" current_interval current_ease_factor =
      calculate_next_review 2 current_interval current_ease_factor ∧
    calculate_mcq_review true "high" current_interval current_ease_factor =
      calculate_next_review 3 current_interval current_ease_factor ∧
    mark_reviewed_mcq_update true "low" current_interval
        current_ease_factor =
      some (max 1 (rhe ((current_interval : ℚ) *
          (current_ease_factor + 0.05))),
        round2 (current_ease_factor + 0.05)) ∧
    mark_reviewed_mcq_update true "medium" current_interval
        current_ease_factor =
      some (max 1 (rhe ((current_interval : ℚ) *
          (current_ease_factor + 0.1))),
        round2 (current_ease_factor + 0.1)) := by
  refine ⟨cmr_correct_low _ _, cmr_correct_medium _ _,
    cmr_correct_high _ _, ?_, ?_⟩
  · unfold mark_reviewed_mcq_update
    rw [if_neg (not_not_intro (Or.inl rfl))]
    dsimp only
    norm_num
    exact fun h => absurd h (by decide)
  · unfold mark_reviewed_mcq_update
    rw [if_neg (not_not_intro (Or.inr (Or.inl rfl)))]
    dsimp only
    norm_num
    simp only [if_neg (by decide : ¬ ("medium" : String) = "high"),
      if_neg (by decide : ¬ ("medium" : String) = "low"),
      if_neg (by decide : ¬ (2 : ℤ) = 0)]

/--
C4: a confidently wrong MCQ answer gets the standard rating-0 update with
an extra 0.1 subtracted from the ease factor, re-clamped at the 1.3
floor; concretely `(False, "high", 10, 2.5) ↦ (1, 2.2)` and
`(False, "low", 10, 2.5) ↦ (1, 2.3)`; and whenever the unclamped results
stay above 1.3 the confidently-wrong ease factor is strictly smaller.
-/
theorem calculate_mcq_review_high_wrong (current_interval : ℤ)
    (current_ease_factor : ℚ) (hI : 1 ≤ current_interval)
    (hE1 : (13/10 : ℚ) ≤ current_ease_factor)
    (hE2 : current_ease_factor ≤ 3) :
    calculate_mcq_review false "high" current_interval current_ease_factor =
      some (1, round2 (max 1.3 (max 1.3 (current_ease_factor - 0.2) - 0.1)))
      ∧
    calculate_mcq_review false "high" 10 2.5 = some (1, 2.2) ∧
    calculate_mcq_review false "low" 10 2.5 = some (1, 2.3) ∧
    ((13/10 : ℚ) < current_ease_factor - 1/5 →
      (13/10 : ℚ) < round2 (max (13/10)
          (current_ease_factor - 1/5)) - 1/10 →
      ∃ ph pl,
        calculate_mcq_review false "high" current_interval
          current_ease_factor = some ph ∧
        calculate_mcq_review false "low" current_interval
          current_ease_factor = some pl ∧
        ph.2 < pl.2) := by
  refine ⟨cmr_false_high _ _, ?_, ?_, ?_⟩
  · rw [cmr_false_high,
      show max (1.3 : ℚ) ((2.5 : ℚ) - 0.2) = 23/10 by norm_num [max_def],
      show max (1.3 : ℚ) ((23/10 : ℚ) - 0.1) = 11/5 by norm_num [max_def],
      round2_lit (show (11/5 : ℚ) * 100 = ((220 : ℤ) : ℚ) by norm_num)]
    norm_num
  · rw [cmr_false_low,
      show max (1.3 : ℚ) ((2.5 : ℚ) - 0.2) = 23/10 by norm_num [max_def],
      round2_lit (show (23/10 : ℚ) * 100 = ((230 : ℤ) : ℚ) by norm_num)]
    norm_num
  · intro h1 h2
    refine ⟨_, _, cmr_false_high _ _, cmr_false_low _ _, ?_⟩
    dsimp only
    simp only [show (1.3 : ℚ) = 13/10 by norm_num,
      show (0.2 : ℚ) = 1/5 by norm_num, show (0.1 : ℚ) = 1/10 by norm_num]
    rw [← round2_penalty_collapse]
    rw [max_eq_right (le_of_lt h2)]
    rw [round2_sub_tenth, round2_round2]
    linarith

theorem calculate_mcq_review_high_wrong_witness :
    calculate_mcq_review false "high" 10 (5/2) =
      some (1, round2 (max 1.3 (max 1.3 ((5/2 : ℚ) - 0.2) - 0.1))) :=
  (calculate_mcq_review_high_wrong 10 (5/2) (by decide) (by norm_num)
    (by norm_num)).1

theorem interval_mono_helper {I : ℚ} (hI : 0 ≤ I) {a b : ℚ} (hab : a ≤ b) :
    max 1 (rhe (I * a)) ≤ max 1 (rhe (I * b)) :=
  max_le_max le_rfl (rhe_mono (mul_le_mul_of_nonneg_left hab hI))

/--
C8: for a fixed interval and ease factor, the new interval returned by
`calculate_next_review` is non-decreasing in the rating: rating 0 resets
to 1, which is at most each positive-rating result, and the positive
ratings multiply the interval by increasingly larger adjusted ease
factors.
-/
theorem calculate_next_review_interval_mono (r r' current_interval : ℤ)
    (current_ease_factor : ℚ) (h0 : 0 ≤ r) (hrr : r ≤ r') (h3 : r' ≤ 3)
    (hI : 1 ≤ current_interval)
    (hE1 : (13/10 : ℚ) ≤ current_ease_factor)
    (hE2 : current_ease_factor ≤ 3) :
    ∃ p q,
      calculate_next_review r current_interval current_ease_factor = some p ∧
      calculate_next_review r' current_interval current_ease_factor = some q
      ∧ p.1 ≤ q.1 := by
  have hIq : (0 : ℚ) ≤ (current_interval : ℚ) := by
    have h : (0 : ℤ) ≤ current_interval := by omega
    exact_mod_cast h
  rcases eq_or_ne r' 0 with hr' | hr'
  · have hr : r = 0 := by omega
    subst hr
    subst hr'
    exact ⟨_, _, cnr_zero _ _, cnr_zero _ _, le_refl 1⟩
  · rcases eq_or_ne r 0 with hr | hr
    · subst hr
      refine ⟨_, _, cnr_zero _ _, cnr_pos r' _ _ (by omega) h3 hr', ?_⟩
      exact le_max_left 1 _
    · refine ⟨_, _, cnr_pos r _ _ h0 (by omega) hr,
        cnr_pos r' _ _ (by omega) h3 hr', ?_⟩
      dsimp only
      apply interval_mono_helper hIq
      have h1 : r = 1 ∨ r = 2 ∨ r = 3 := by omega
      have h2 : r' = 1 ∨ r' = 2 ∨ r' = 3 := by omega
      rcases h1 with h | h | h <;> rcases h2 with h' | h' | h' <;>
        subst h <;> subst h' <;> push_cast <;> linarith

theorem calculate_next_review_interval_mono_witness :
    ∃ p q, calculate_next_review 0 10 (5/2) = some p ∧
      calculate_next_review 3 10 (5/2) = some q ∧ p.1 ≤ q.1 :=
  calculate_next_review_interval_mono 0 3 10 (5/2) (by decide) (by decide)
    (by decide) (by decide) (by norm_num) (by norm_num)

end SpacedRep
